import Mathlib

/-!
Shallow embedding of the core of `src/build/all/js/highland.js` (Highland.js
0.0.1): the arity-curry engine (`L.ncurry`), the structural equivalence
engine (`L.eqv` / `objEquiv`), the ordering predicates (`L.lt` / `L.gt`)
and the arithmetic wrappers (`L.rem` / `L.mod`).

Modelling conventions:
* JavaScript numbers are modelled as rationals (`ℚ`) together with a
  distinguished `vNaN` value; infinities and floating-point rounding are
  outside the model.
* Object references are modelled by tagging every composite value with a
  numeric id.  Two composite values denote the same heap object exactly
  when they carry the same id; a well-formed heap never holds two distinct
  composites with equal ids.  JavaScript `===` is then `refEq` below.
* Throwing is modelled with `Except JSErr`: `TypeError`s raised by the
  typed operators, and the `ReferenceError` raised on the unbound global
  `pSlice` at highland.js lines 291-292 (the identifier `pSlice` is never
  declared anywhere in the file, so entering that branch throws).
-/

namespace Highland

/-! ### The arity-curry engine (highland.js lines 128-140)

`L.ncurry(n, fn, ...largs)` either fires immediately (when `largs.length
>= n`, invoking `fn` with `largs.slice(0, n)`) or returns a closure that
captures `largs`.  The closure, applied to a further argument group `g`,
concatenates and repeats the same test; when still unsaturated it returns
`L.ncurry(n, fn, ...args)`, which (being unsaturated) is again a closure
capturing the longer list.  Hence every reachable state of the front end
is fully described by the accumulated argument list, and both the initial
call and every closure application are the single step function `ncurry`
below: `.inl acc` is a returned closure capturing `acc`, `.inr r` is the
terminal result of invoking `fn` once. -/

def ncurry {α β : Type} (n : Nat) (fn : List α → β) (largs : List α) :
    List α ⊕ β :=
  if n ≤ largs.length then Sum.inr (fn (largs.take n)) else Sum.inl largs

/-- Invoking the front end with the successive argument groups `gs`:
each call concatenates its group onto the captured arguments and steps.
`some r` means the chain terminated with result `r` exactly at the last
group; `none` means it was still waiting (or had already terminated). -/
def runCalls {α β : Type} (n : Nat) (fn : List α → β) :
    List α ⊕ β → List (List α) → Option β
  | Sum.inr r, [] => some r
  | Sum.inr _, _ :: _ => none
  | Sum.inl _, [] => none
  | Sum.inl acc, g :: gs => runCalls n fn (ncurry n fn (acc ++ g)) gs

/-- The example target `(a, b) => a + b` used by the spec for
`curryWithArity(2, ...)`; it reads its first two arguments. -/
def addPair (l : List Int) : Int := l.getD 0 0 + l.getD 1 0

/-! ### JavaScript values -/

/-- Errors thrown by the embedded code: `TypeError`s from the typed
operators and the `ReferenceError` on the unbound `pSlice` global. -/
inductive JSErr where
  | typeError (msg : String)
  | refError
  deriving DecidableEq, Repr

/-- JavaScript values, as the equivalence engine distinguishes them.
Composite (heap-allocated) values carry an id modelling their reference:
same id = same object. `vNum` is a finite number; `vNaN` is NaN.
`vFun` is an opaque function value. Buffers carry raw bytes, dates their
epoch-milliseconds instant, regexps their source and flags. -/
inductive JSVal where
  | vNum (q : ℚ)
  | vNaN
  | vStr (s : String)
  | vBool (b : Bool)
  | vNull
  | vUndef
  | vArr (id : Nat) (xs : List JSVal)
  | vObj (id : Nat) (fields : List (String × JSVal))
  | vArgs (id : Nat) (xs : List JSVal)
  | vDate (id : Nat) (t : Int)
  | vRegExp (id : Nat) (source : String) (g m ic : Bool) (lastIndex : Int)
  | vBuf (id : Nat) (bytes : List Nat)
  | vFun (id : Nat)

open JSVal

mutual

/-- Nesting depth of a value: 0 for primitives, 1 for heap leaves
(dates, regexps, buffers, functions), 1 + children for containers.
Used as the termination measure of the equivalence recursion. -/
def depth : JSVal → Nat
  | vArr _ xs => 1 + depthList xs
  | vObj _ fs => 1 + depthFields fs
  | vArgs _ xs => 1 + depthList xs
  | vDate _ _ => 1
  | vRegExp _ _ _ _ _ _ => 1
  | vBuf _ _ => 1
  | vFun _ => 1
  | _ => 0

def depthList : List JSVal → Nat
  | [] => 0
  | x :: xs => max (depth x) (depthList xs)

def depthFields : List (String × JSVal) → Nat
  | [] => 0
  | f :: fs => max (depth f.2) (depthFields fs)

end

mutual

/-- `true` when no arguments object occurs anywhere inside the value. -/
def argsFree : JSVal → Bool
  | vArgs _ _ => false
  | vArr _ xs => argsFreeList xs
  | vObj _ fs => argsFreeFields fs
  | _ => true

def argsFreeList : List JSVal → Bool
  | [] => true
  | x :: xs => argsFree x && argsFreeList xs

def argsFreeFields : List (String × JSVal) → Bool
  | [] => true
  | f :: fs => argsFree f.2 && argsFreeFields fs

end

/-! ### JavaScript primitive operations used by `L.eqv` -/

/-- JavaScript `===`.  Primitives compare by value, with `NaN !== NaN`;
heap values compare by reference, i.e. by id. -/
def refEq : JSVal → JSVal → Bool
  | vNum a, vNum b => decide (a = b)
  | vStr a, vStr b => decide (a = b)
  | vBool a, vBool b => decide (a = b)
  | vNull, vNull => true
  | vUndef, vUndef => true
  | vArr i _, vArr j _ => decide (i = j)
  | vObj i _, vObj j _ => decide (i = j)
  | vArgs i _, vArgs j _ => decide (i = j)
  | vDate i _, vDate j _ => decide (i = j)
  | vRegExp i _ _ _ _ _, vRegExp j _ _ _ _ _ => decide (i = j)
  | vBuf i _, vBuf j _ => decide (i = j)
  | vFun i, vFun j => decide (i = j)
  | _, _ => false

/-- `Buffer.isBuffer` (the `hasBuffer` flag is true under Node). -/
def isBuffer : JSVal → Bool
  | vBuf _ _ => true
  | _ => false

/-- `x instanceof Date`. -/
def isDate : JSVal → Bool
  | vDate _ _ => true
  | _ => false

/-- `x instanceof RegExp`. -/
def isRegExpVal : JSVal → Bool
  | vRegExp _ _ _ _ _ _ => true
  | _ => false

/-- `L.isArgumentsObject` (highland.js lines 865-867): the
`Object.prototype.toString` tag test. -/
def isArgumentsObject : JSVal → Bool
  | vArgs _ _ => true
  | _ => false

/-- `typeof x == 'object'` — true for `null` and every heap value except
functions (whose `typeof` is `'function'`). -/
def typeofObject : JSVal → Bool
  | vNull => true
  | vArr _ _ => true
  | vObj _ _ => true
  | vArgs _ _ => true
  | vDate _ _ => true
  | vRegExp _ _ _ _ _ _ => true
  | vBuf _ _ => true
  | _ => false

/-- The buffer branch of `L.eqv` (lines 250-260): equal length and
pairwise `===` on the bytes. -/
def bufBytesEq : List Nat → List Nat → Bool
  | [], [] => true
  | a :: as2, b :: bs2 => decide (a = b) && bufBytesEq as2 bs2
  | _, _ => false

def bufEqv : JSVal → JSVal → Bool
  | vBuf _ as2, vBuf _ bs2 =>
    if as2.length ≠ bs2.length then false else bufBytesEq as2 bs2
  | _, _ => false

/-- The date branch (line 262): `a.getTime() === b.getTime()`. -/
def dateEqv : JSVal → JSVal → Bool
  | vDate _ t, vDate _ u => decide (t = u)
  | _, _ => false

/-- The regexp branch (lines 264-269): source and all flags plus
`lastIndex` must agree. -/
def regexpEqv : JSVal → JSVal → Bool
  | vRegExp _ s1 g1 m1 i1 l1, vRegExp _ s2 g2 m2 i2 l2 =>
    decide (s1 = s2) && decide (g1 = g2) && decide (m1 = m2) &&
      decide (l1 = l2) && decide (i1 = i2)
  | _, _ => false

/-- Simplified ECMAScript `ToNumber` on strings: optional sign, decimal
digits with an optional fractional part; the empty (trimmed) string is 0;
anything else is NaN (`none`).  Hex and exponent forms are outside the
model; no claim exercises them. -/
def digitsVal : List Char → Option Nat
  | [] => none
  | [c] => if c.isDigit then some (c.toNat - 48) else none
  | c :: cs =>
    if c.isDigit then
      match digitsVal cs with
      | some v => some ((c.toNat - 48) * 10 ^ cs.length + v)
      | none => none
    else none

def isWsChar (c : Char) : Bool :=
  decide (c = ' ') || decide (c = '\t') || decide (c = '\n') ||
    decide (c = '\r')

def trimChars (l : List Char) : List Char :=
  ((l.dropWhile isWsChar).reverse.dropWhile isWsChar).reverse

def strToNum (s : String) : Option ℚ :=
  let t := trimChars s.data
  if t.isEmpty then some 0
  else
    let (sgn, body) : ℚ × List Char :=
      match t with
      | '-' :: rest => (-1, rest)
      | '+' :: rest => (1, rest)
      | _ => (1, t)
    match body.splitOn '.' with
    | [ip] =>
      match digitsVal ip with
      | some v => some (sgn * v)
      | none => none
    | [ip, fp] =>
      match ip, fp with
      | [], [] => none
      | _, _ =>
        let iv : Option Nat := if ip.isEmpty then some 0 else digitsVal ip
        let fv : Option Nat := if fp.isEmpty then some 0 else digitsVal fp
        match iv, fv with
        | some i, some f => some (sgn * (i + (f : ℚ) / 10 ^ fp.length))
        | _, _ => none
    | _ => none

/-- JavaScript loose equality `==`, restricted to the values that can
reach the scalar rule of `L.eqv` (both operands of non-`'object'`
`typeof`): numbers, NaN, strings, booleans, `undefined` and functions.
Numbers and strings compare after `ToNumber` coercion of the string;
booleans coerce to numbers; `undefined` equals only `undefined` (and
`null`, which cannot reach here); functions compare by reference. -/
def looseEq : JSVal → JSVal → Bool
  | vNaN, _ => false
  | _, vNaN => false
  | vNum a, vNum b => decide (a = b)
  | vStr a, vStr b => decide (a = b)
  | vBool a, vBool b => decide (a = b)
  | vUndef, vUndef => true
  | vNull, vNull => true
  | vNull, vUndef => true
  | vUndef, vNull => true
  | vNum a, vStr s => match strToNum s with
    | some q => decide (a = q)
    | none => false
  | vStr s, vNum a => match strToNum s with
    | some q => decide (q = a)
    | none => false
  | vBool x, vNum a => decide ((if x then (1 : ℚ) else 0) = a)
  | vNum a, vBool x => decide (a = (if x then (1 : ℚ) else 0))
  | vBool x, vStr s => match strToNum s with
    | some q => decide ((if x then (1 : ℚ) else 0) = q)
    | none => false
  | vStr s, vBool x => match strToNum s with
    | some q => decide (q = (if x then (1 : ℚ) else 0))
    | none => false
  | vFun i, vFun j => decide (i = j)
  | _, _ => false

/-- `x === null || x === undefined` (objEquiv, line 280). -/
def isNullish : JSVal → Bool
  | vNull => true
  | vUndef => true
  | _ => false

/-- The value of the property named `"prototype"` on a non-function
value: ordinary instances have no such own or inherited property unless a
record explicitly carries a field of that name, so the access yields
`undefined` otherwise.  (Arrays, arguments objects, dates, regexps and
buffers expose no enumerable or plain `prototype` property.) -/
def protoProp : JSVal → JSVal
  | vObj _ fs => ((fs.lookup "prototype").getD vUndef)
  | _ => vUndef

/-- The test `a.prototype === b.prototype` of objEquiv line 284.  Every
function owns a fresh `prototype` object, so two function values agree
exactly when they are the same function; a function's prototype object is
never `===` to anything reachable otherwise. -/
def protoEq : JSVal → JSVal → Bool
  | vFun i, vFun j => decide (i = j)
  | vFun _, _ => false
  | _, vFun _ => false
  | a, b => refEq (protoProp a) (protoProp b)

/-- A canonical array-index key: the decimal numeral without leading
zeros, as produced by `Object.keys` on an array. -/
def parseIdx (s : String) : Option Nat :=
  match s.data with
  | [] => none
  | [c] => if c.isDigit then some (c.toNat - 48) else none
  | c :: cs => if c = '0' then none else digitsVal (c :: cs)

/-- `Object.keys x` under ES5 semantics: the own enumerable property
names of an object, in insertion (respectively index) order; applied to a
primitive (string literal, number, boolean, NaN) it throws `TypeError`,
modelled as `none` — the code's own comment at objEquiv lines 300-302
documents the string-literal case.  Dates, regexps and functions own no
enumerable properties; buffers expose their byte indices. -/
def objectKeys : JSVal → Option (List String)
  | vObj _ fs => some (fs.map Prod.fst)
  | vArr _ xs => some ((List.range xs.length).map (fun i => toString i))
  | vArgs _ xs => some ((List.range xs.length).map (fun i => toString i))
  | vBuf _ bs => some ((List.range bs.length).map (fun i => toString i))
  | vDate _ _ => some []
  | vRegExp _ _ _ _ _ _ => some []
  | vFun _ => some []
  | _ => none

/-- Own-property access `x[key]` for a key drawn from `Object.keys`:
record fields by name, container elements by canonical index, buffer
bytes as numbers; anything else is `undefined`. -/
def getOwn : JSVal → String → JSVal
  | vObj _ fs, k => (fs.lookup k).getD vUndef
  | vArr _ xs, k => match parseIdx k with
    | some i => xs.getD i vUndef
    | none => vUndef
  | vArgs _ xs, k => match parseIdx k with
    | some i => xs.getD i vUndef
    | none => vUndef
  | vBuf _ bs, k => match parseIdx k with
    | some i => match bs.get? i with
      | some n => vNum n
      | none => vUndef
    | none => vUndef
  | _, _ => vUndef

/-- Lexicographic order on character lists, JavaScript's default sort
comparator on (BMP) strings. -/
def charListLe : List Char → List Char → Bool
  | [], _ => true
  | _ :: _, [] => false
  | c :: cs, d :: ds => if c = d then charListLe cs ds else decide (c < d)

def keyLe (s t : String) : Bool := charListLe s.data t.data

/-- `Array.prototype.sort()` on a key list: ascending string order
(insertion sort; JavaScript's default comparator is string order). -/
def insertKey (k : String) : List String → List String
  | [] => [k]
  | x :: xs => if keyLe k x then k :: x :: xs else x :: insertKey k xs

def sortKeys (ks : List String) : List String := ks.foldr insertKey []

theorem depth_lookup_le {fs : List (String × JSVal)} {k : String}
    {v : JSVal} (h : fs.lookup k = some v) : depth v ≤ depthFields fs := by
  induction fs with
  | nil => simp [List.lookup] at h
  | cons f fs ih =>
    rw [List.lookup] at h
    by_cases hk : k == f.1
    · simp [hk] at h
      subst h
      simp [depthFields]
    · simp [hk] at h
      calc depth v ≤ depthFields fs := ih h
        _ ≤ depthFields (f :: fs) := by simp [depthFields]

theorem depth_getD_le {xs : List JSVal} {i : Nat} :
    depth (xs.getD i vUndef) ≤ depthList xs := by
  induction xs generalizing i with
  | nil => simp [depth]
  | cons x xs ih =>
    cases i with
    | zero => simp [depthList]
    | succ j =>
      calc depth ((x :: xs).getD (j + 1) vUndef)
          = depth (xs.getD j vUndef) := rfl
        _ ≤ depthList xs := ih
        _ ≤ depthList (x :: xs) := by simp [depthList]

theorem depth_pos_of_keys {a : JSVal} (h : (objectKeys a).isSome) :
    1 ≤ depth a := by
  cases a <;> simp [objectKeys] at h ⊢ <;> simp [depth]

theorem getOwn_depth_lt {a : JSVal} (ha : 1 ≤ depth a) (k : String) :
    depth (getOwn a k) < depth a := by
  cases a with
  | vArr id xs =>
    show depth (match parseIdx k with
      | some i => xs.getD i vUndef
      | none => vUndef) < depth (vArr id xs)
    cases parseIdx k with
    | some i =>
      have := @depth_getD_le xs i
      simp only [depth]
      omega
    | none => simp [depth]
  | vArgs id xs =>
    show depth (match parseIdx k with
      | some i => xs.getD i vUndef
      | none => vUndef) < depth (vArgs id xs)
    cases parseIdx k with
    | some i =>
      have := @depth_getD_le xs i
      simp only [depth]
      omega
    | none => simp [depth]
  | vObj id fs =>
    show depth ((fs.lookup k).getD vUndef) < depth (vObj id fs)
    cases h : fs.lookup k with
    | some v =>
      have := depth_lookup_le h
      simp only [depth, Option.getD]
      omega
    | none => simp [depth]
  | vBuf id bs =>
    show depth (match parseIdx k with
      | some i => match bs.get? i with
        | some n => vNum n
        | none => vUndef
      | none => vUndef) < depth (vBuf id bs)
    cases parseIdx k with
    | some i => cases h2 : bs[i]? <;> simp [h2, depth]
    | none => simp [depth]
  | vDate id t => simp [getOwn, depth]
  | vRegExp id s g m ic l => simp [getOwn, depth]
  | vFun id => simp [getOwn, depth]
  | vNum q => simp [depth] at ha
  | vNaN => simp [depth] at ha
  | vStr s => simp [depth] at ha
  | vBool b => simp [depth] at ha
  | vNull => simp [depth] at ha
  | vUndef => simp [depth] at ha

/-! ### The structural equivalence engine (highland.js lines 246-327)

`L.eqv` is the ordered decision list of the source: identity (`===`),
buffers, dates, regexps, the scalar rule (`==` when neither operand has
`typeof` `'object'`), then `objEquiv`.  `objEquiv` rejects null/undefined,
compares the `prototype` property, handles arguments objects (entering
the normalisation branch throws, because the `pSlice` helper it calls is
an unbound global in this build — lines 291-292), then compares the
sorted own key sets and finally, walking the sorted keys from the last
to the first as the source's loops do, recursively compares the values.
`Object.keys` throwing (on a primitive operand) is caught and yields
`false`; that `try/catch` is `objectKeys` returning `none` here. -/

mutual

def eqv (a b : JSVal) : Except JSErr Bool :=
  if refEq a b then .ok true
  else if isBuffer a && isBuffer b then .ok (bufEqv a b)
  else if isDate a && isDate b then .ok (dateEqv a b)
  else if isRegExpVal a && isRegExpVal b then .ok (regexpEqv a b)
  else if !typeofObject a && !typeofObject b then .ok (looseEq a b)
  else objEquiv a b
  termination_by (depth a + depth b, 2, 0)

def objEquiv (a b : JSVal) : Except JSErr Bool :=
  if isNullish a || isNullish b then .ok false
  else if protoEq a b then
    if isArgumentsObject a then
      if isArgumentsObject b then .error .refError else .ok false
    else if ha : (objectKeys a).isSome then
      if hb : (objectKeys b).isSome then
        if ((objectKeys a).get ha).length =
            ((objectKeys b).get hb).length then
          if sortKeys ((objectKeys a).get ha) =
              sortKeys ((objectKeys b).get hb) then
            eqvValues a b (depth_pos_of_keys ha) (depth_pos_of_keys hb)
              (sortKeys ((objectKeys a).get ha)).reverse
          else .ok false
        else .ok false
      else .ok false
    else .ok false
  else .ok false
  termination_by (depth a + depth b, 1, 0)

def eqvValues (a b : JSVal) (ha : 1 ≤ depth a) (hb : 1 ≤ depth b) :
    List String → Except JSErr Bool
  | [] => .ok true
  | k :: ks =>
    match eqv (getOwn a k) (getOwn b k) with
    | .error e => .error e
    | .ok false => .ok false
    | .ok true => eqvValues a b ha hb ks
  termination_by ks => (depth a + depth b, 0, ks.length)
  decreasing_by
    all_goals simp_wf
    · exact Prod.Lex.left _ _ (by
        have h1 := getOwn_depth_lt ha x
        have h2 := getOwn_depth_lt hb x
        omega)
    · exact Prod.Lex.right _ (Prod.Lex.right _ (by omega))

end

/-! ### `L.type` (lines 887-898) and the ordering predicates
`L.lt` / `L.gt` (lines 379-402 and 422-445) -/

/-- `L.type`: the first matching tag of the cascade isArray, isFunction,
isObject, isString, isNumber, isBoolean, isNull, isUndefined. -/
def type : JSVal → String
  | vArr _ _ => "array"
  | vFun _ => "function"
  | vObj _ _ => "object"
  | vArgs _ _ => "object"
  | vDate _ _ => "object"
  | vRegExp _ _ _ _ _ _ => "object"
  | vBuf _ _ => "object"
  | vStr _ => "string"
  | vNum _ => "number"
  | vNaN => "number"
  | vBool _ => "boolean"
  | vNull => "null"
  | vUndef => "undefined"

/-- `a < b` on two values of `L.type` `'string'` or `'number'`: rational
or lexicographic string order; any comparison with NaN is false. -/
def ltPrim : JSVal → JSVal → Bool
  | vNum a, vNum b => decide (a < b)
  | vStr a, vStr b => decide (a < b)
  | _, _ => false

/-- `a > b` on two values of `L.type` `'string'` or `'number'`. -/
def gtPrim : JSVal → JSVal → Bool
  | vNum a, vNum b => decide (b < a)
  | vStr a, vStr b => decide (b < a)
  | _, _ => false

mutual

def lt (a b : JSVal) : Except JSErr Bool :=
  if type a ≠ type b then
    .error (.typeError ("Cannot compare type " ++ type a ++ " with type "
      ++ type b))
  else if type a = "string" || type a = "number" then .ok (ltPrim a b)
  else match a, b with
    | vArr _ xs, vArr _ ys => ltElems xs ys
    | _, _ => .error (.typeError ("Cannot order values of type " ++ type a))

/-- The element loop of `L.lt` on arrays: run to the shorter length,
returning at the first strictly-smaller element, stopping at the first
non-equivalent one, and falling back to the length comparison (after
consuming equally many elements, comparing the remainders' lengths is
the original `a.length < b.length`). -/
def ltElems : List JSVal → List JSVal → Except JSErr Bool
  | x :: xs, y :: ys =>
    (match lt x y with
    | .error e => .error e
    | .ok true => .ok true
    | .ok false =>
      match eqv x y with
      | .error e => .error e
      | .ok true => ltElems xs ys
      | .ok false => .ok false)
  | xs, ys => .ok (decide (xs.length < ys.length))

end

mutual

def gt (a b : JSVal) : Except JSErr Bool :=
  if type a ≠ type b then
    .error (.typeError ("Cannot compare type " ++ type a ++ " with type "
      ++ type b))
  else if type a = "string" || type a = "number" then .ok (gtPrim a b)
  else match a, b with
    | vArr _ xs, vArr _ ys => gtElems xs ys
    | _, _ => .error (.typeError ("Cannot order values of type " ++ type a))

def gtElems : List JSVal → List JSVal → Except JSErr Bool
  | x :: xs, y :: ys =>
    (match gt x y with
    | .error e => .error e
    | .ok true => .ok true
    | .ok false =>
      match eqv x y with
      | .error e => .error e
      | .ok true => gtElems xs ys
      | .ok false => .ok false)
  | xs, ys => .ok (decide (ys.length < xs.length))

end

/-! ### The arithmetic wrappers `L.rem` (lines 624-631) and `L.mod`
(lines 647-654) -/

/-- `L.isNumber`: true for every value whose class is Number, NaN
included. -/
def isNumber : JSVal → Bool
  | vNum _ => true
  | vNaN => true
  | _ => false

/-- Truncation toward zero, as JavaScript `%` divides. -/
def jsTrunc (q : ℚ) : Int := if 0 ≤ q then ⌊q⌋ else ⌈q⌉

/-- The remainder `a % b` on finite numbers with `b ≠ 0`. -/
def ratRem (a b : ℚ) : ℚ := a - b * (jsTrunc (a / b) : ℚ)

/-- `a % b` on number values: NaN when either operand is NaN or the
divisor is zero. -/
def numRem : JSVal → JSVal → JSVal
  | vNum a, vNum b => if b = 0 then vNaN else vNum (ratRem a b)
  | _, _ => vNaN

/-- `a + b` on number values. -/
def numAdd : JSVal → JSVal → JSVal
  | vNum a, vNum b => vNum (a + b)
  | _, _ => vNaN

def rem (a b : JSVal) : Except JSErr JSVal :=
  if isNumber a && isNumber b then .ok (numRem a b)
  else .error (.typeError ("Expecting two Number arguments, got: "
    ++ type a ++ ", " ++ type b))

def mod (a b : JSVal) : Except JSErr JSVal :=
  if isNumber a && isNumber b then .ok (numRem (numAdd (numRem a b) b) b)
  else .error (.typeError ("Expecting two Number arguments, got: "
    ++ type a ++ ", " ++ type b))

/-! ## Theorems -/

/-! ### C1, C2: the curry engine -/

theorem runCalls_partition {α β : Type} (n : Nat) (fn : List α → β)
    (gs : List (List α)) :
    ∀ acc : List α, gs ≠ [] → (∀ g ∈ gs, g ≠ []) →
      acc.length + gs.flatten.length = n →
      runCalls n fn (Sum.inl acc) gs = some (fn (acc ++ gs.flatten)) := by
  induction gs with
  | nil => intro acc h; exact absurd rfl h
  | cons g gs ih =>
    intro acc _ hne hlen
    rw [runCalls]
    cases gs with
    | nil =>
      have hfull : (acc ++ g).length = n := by
        simp only [List.flatten_cons, List.flatten_nil, List.append_nil]
          at hlen
        simpa using hlen
      have : ncurry n fn (acc ++ g) = Sum.inr (fn (acc ++ g)) := by
        rw [ncurry, if_pos (le_of_eq hfull.symm), ← hfull,
          List.take_length]
      rw [this]
      simp [runCalls]
    | cons g2 gs2 =>
      have hg2 : g2 ≠ [] := hne g2 (by simp)
      have hg2len : 1 ≤ g2.length := by
        cases g2 with
        | nil => exact absurd rfl hg2
        | cons x xs => simp
      have hlt : ¬ n ≤ (acc ++ g).length := by
        simp only [List.flatten_cons, List.length_append] at hlen ⊢
        omega
      have hstep : ncurry n fn (acc ++ g) = Sum.inl (acc ++ g) := by
        rw [ncurry, if_neg hlt]
      rw [hstep]
      have := ih (acc ++ g) (by simp)
        (fun h hm => hne h (List.mem_cons_of_mem _ hm))
        (by simp only [List.flatten_cons, List.length_append] at hlen ⊢
            omega)
      rw [this]
      simp only [List.flatten_cons, List.append_assoc]

/-- C1: for every target callable `f` of declared arity `n` and every
partition of a list of `n` arguments into consecutive non-empty groups,
invoking the front end produced by `ncurry(n, f)` with each group in
sequence terminates exactly at the last group with `f` invoked once, on
the `n` arguments in their original order, and yields `f`'s result. -/
theorem C1_ncurry_partition {α β : Type} (fn : List α → β) (xs : List α)
    (gs : List (List α)) (hflat : gs.flatten = xs)
    (hne : ∀ g ∈ gs, g ≠ []) :
    runCalls xs.length fn (ncurry xs.length fn []) gs = some (fn xs) := by
  cases gs with
  | nil =>
    have : xs = [] := by simpa using hflat.symm
    subst this
    simp [ncurry, runCalls]
  | cons g gs2 =>
    have hg : g ≠ [] := hne g (by simp)
    have hpos : 1 ≤ xs.length := by
      rw [← hflat]
      cases g with
      | nil => exact absurd rfl hg
      | cons x t => simp
    have hinit : ncurry xs.length fn ([] : List α) = Sum.inl [] := by
      rw [ncurry, if_neg]
      simp only [List.length_nil]
      omega
    rw [hinit]
    have := runCalls_partition xs.length fn (g :: gs2) [] (by simp) hne
      (by simp [hflat])
    simpa [hflat] using this

theorem C1_ncurry_partition_witness :
    runCalls ([(1 : Int), 2, 3]).length (fun l => l)
      (ncurry ([(1 : Int), 2, 3]).length (fun l => l) [])
      [[(1 : Int)], [2, 3]] = some [(1 : Int), 2, 3] :=
  C1_ncurry_partition (fun l => l) [(1 : Int), 2, 3] [[(1 : Int)], [2, 3]]
    (by decide) (by decide)

/-- C2: whenever the accumulated argument list reaches or exceeds the
declared arity `n` — whether pre-applied or gathered across successive
calls, every saturation step being `ncurry n fn args` on the
concatenation — the target is invoked with exactly the first `n`
arguments and the result is the same as supplying exactly those first
`n`; the trailing extras are discarded.  In particular
`curryWithArity(2, (a,b) => a+b)(1,2,3) == 3` (see the witness). -/
theorem C2_ncurry_extra_args {α β : Type} (n : Nat) (fn : List α → β)
    (args : List α) (h : n ≤ args.length) :
    ncurry n fn args = Sum.inr (fn (args.take n)) ∧
    ncurry n fn args = ncurry n fn (args.take n) := by
  constructor
  · rw [ncurry, if_pos h]
  · rw [ncurry, if_pos h, ncurry,
      if_pos (by simp only [List.length_take]; exact le_min le_rfl h)]
    rw [List.take_take, min_self]

theorem C2_ncurry_extra_args_witness :
    2 ≤ ([(1 : Int), 2, 3]).length ∧
    ncurry 2 addPair [(1 : Int), 2, 3] =
      Sum.inr (addPair ([(1 : Int), 2, 3].take 2)) ∧
    runCalls 2 addPair (ncurry 2 addPair []) [[(1 : Int), 2, 3]] =
      some 3 := by
  have h := C2_ncurry_extra_args 2 addPair [(1 : Int), 2, 3] (by decide)
  refine ⟨by decide, h.1, ?_⟩
  show runCalls 2 addPair (Sum.inl []) [[(1 : Int), 2, 3]] = some 3
  rw [runCalls, List.nil_append, h.1]
  rfl

/-! ### C7: `L.rem` and `L.mod` -/

theorem jsTrunc_of_nonneg {q : ℚ} (h : 0 ≤ q) : jsTrunc q = ⌊q⌋ := by
  rw [jsTrunc, if_pos h]

theorem jsTrunc_of_neg {q : ℚ} (h : q < 0) : jsTrunc q = ⌈q⌉ := by
  rw [jsTrunc, if_neg (not_le.mpr h)]

theorem ratRem_eq_mul (a b : ℚ) (hb : b ≠ 0) :
    ratRem a b = b * (a / b - (jsTrunc (a / b) : ℚ)) := by
  rw [ratRem, mul_sub]
  have : b * (a / b) = a := by field_simp
  rw [this]

/-- C7: for every finite number `a` and positive finite number `b`,
`mod(a, b)` is the true mathematical modulus `a - b * floor(a / b)`,
which is non-negative and below `b`, while `rem(a, b)` is the truncated
remainder, carrying the sign of `a` and lying strictly between `-b` and
`b`.  In particular `mod(-1, 5) == 4` and `rem(-1, 5) == -1` (witness). -/
theorem C7_mod_rem (a b : ℚ) (hb : 0 < b) :
    mod (vNum a) (vNum b) = .ok (vNum (a - b * ⌊a / b⌋)) ∧
    0 ≤ a - b * ⌊a / b⌋ ∧ a - b * ⌊a / b⌋ < b ∧
    rem (vNum a) (vNum b) = .ok (vNum (ratRem a b)) ∧
    (0 ≤ a → 0 ≤ ratRem a b) ∧ (a ≤ 0 → ratRem a b ≤ 0) ∧
    -b < ratRem a b ∧ ratRem a b < b := by
  have hbne : b ≠ 0 := ne_of_gt hb
  have hq : b * (a / b) = a := by field_simp
  have hfr : Int.fract (a / b) = a / b - ⌊a / b⌋ := rfl
  have hmathm : a - b * ⌊a / b⌋ = b * Int.fract (a / b) := by
    rw [hfr, mul_sub, hq]
  have hm0 : 0 ≤ a - b * ⌊a / b⌋ := by
    rw [hmathm]
    exact mul_nonneg hb.le (Int.fract_nonneg _)
  have hm1 : a - b * ⌊a / b⌋ < b := by
    rw [hmathm]
    calc b * Int.fract (a / b) < b * 1 :=
          (mul_lt_mul_left hb).mpr (Int.fract_lt_one _)
      _ = b := mul_one b
  have hrw : ratRem a b = b * (a / b - (jsTrunc (a / b) : ℚ)) :=
    ratRem_eq_mul a b hbne
  -- the value of the remainder in the two truncation regimes
  have hcases : ratRem a b = b * Int.fract (a / b) ∨
      (a / b < 0 ∧ ratRem a b = b * (Int.fract (a / b) - 1)) := by
    rcases le_or_lt 0 (a / b) with hpos | hneg
    · left
      rw [hrw, jsTrunc_of_nonneg hpos, hfr]
    · by_cases hz : Int.fract (a / b) = 0
      · left
        have hint : (⌊a / b⌋ : ℚ) = a / b := by
          rw [hfr] at hz
          linarith
        have hceil : (⌈a / b⌉ : ℚ) = a / b := by
          rw [← hint]
          norm_cast
          simp
        rw [hrw, jsTrunc_of_neg hneg, hceil, hz]
        ring
      · right
        refine ⟨hneg, ?_⟩
        have hflt : (⌊a / b⌋ : ℚ) < a / b := by
          rcases lt_or_eq_of_le (Int.floor_le (a / b)) with h | h
          · exact h
          · exact absurd (by rw [hfr]; linarith) hz
        have hceil : ⌈a / b⌉ = ⌊a / b⌋ + 1 := by
          have h1 : ⌈a / b⌉ ≤ ⌊a / b⌋ + 1 := Int.ceil_le_floor_add_one _
          have h2 : (⌊a / b⌋ : ℚ) < (⌈a / b⌉ : ℚ) :=
            lt_of_lt_of_le hflt (Int.le_ceil _)
          have h3 : ⌊a / b⌋ < ⌈a / b⌉ := by exact_mod_cast h2
          omega
        rw [hrw, jsTrunc_of_neg hneg, hceil, hfr]
        push_cast
        ring
  have hsign1 : 0 ≤ a → 0 ≤ ratRem a b := by
    intro ha
    have hq0 : 0 ≤ a / b := div_nonneg ha hb.le
    rw [hrw, jsTrunc_of_nonneg hq0]
    have h1 : (⌊a / b⌋ : ℚ) ≤ a / b := Int.floor_le _
    nlinarith
  have hsign2 : a ≤ 0 → ratRem a b ≤ 0 := by
    intro ha
    have hqle : a / b ≤ 0 := div_nonpos_of_nonpos_of_nonneg ha hb.le
    rcases lt_or_eq_of_le hqle with hlt | heq
    · rw [hrw, jsTrunc_of_neg hlt]
      have h1 : a / b ≤ (⌈a / b⌉ : ℚ) := Int.le_ceil _
      nlinarith
    · rw [hrw, heq]
      norm_num [jsTrunc]
  have htr1 : -1 < a / b - (jsTrunc (a / b) : ℚ) := by
    rcases le_or_lt 0 (a / b) with hpos | hneg
    · rw [jsTrunc_of_nonneg hpos]
      have h1 : (⌊a / b⌋ : ℚ) ≤ a / b := Int.floor_le _
      linarith
    · rw [jsTrunc_of_neg hneg]
      have h2 : (⌈a / b⌉ : ℚ) < a / b + 1 := Int.ceil_lt_add_one _
      linarith
  have htr2 : a / b - (jsTrunc (a / b) : ℚ) < 1 := by
    rcases le_or_lt 0 (a / b) with hpos | hneg
    · rw [jsTrunc_of_nonneg hpos]
      have h2 : a / b < (⌊a / b⌋ : ℚ) + 1 := Int.lt_floor_add_one _
      linarith
    · rw [jsTrunc_of_neg hneg]
      have h1 : a / b ≤ (⌈a / b⌉ : ℚ) := Int.le_ceil _
      linarith
  have hbound1 : -b < ratRem a b := by
    rw [hrw]
    nlinarith
  have hbound2 : ratRem a b < b := by
    rw [hrw]
    nlinarith
  have hremeq : rem (vNum a) (vNum b) = .ok (vNum (ratRem a b)) := by
    rw [rem]
    simp [isNumber, numRem, hbne]
  have hmodeq : mod (vNum a) (vNum b) = .ok (vNum (a - b * ⌊a / b⌋)) := by
    rw [mod]
    simp only [isNumber, Bool.and_self, if_true]
    rw [show numRem (vNum a) (vNum b) = vNum (ratRem a b) by
      simp [numRem, hbne]]
    rw [show numAdd (vNum (ratRem a b)) (vNum b) =
      vNum (ratRem a b + b) from rfl]
    rw [show numRem (vNum (ratRem a b + b)) (vNum b) =
      vNum (ratRem (ratRem a b + b) b) by simp [numRem, hbne]]
    rw [hmathm]
    -- evaluate the outer remainder on `r + b`, which lies in (0, 2b)
    rcases hcases with h | ⟨_, h⟩
    · -- r = b * fract : (r + b) / b = fract + 1, truncating to 1
      have hdiv : (ratRem a b + b) / b = Int.fract (a / b) + 1 := by
        rw [h]
        field_simp
        ring
      have htr : jsTrunc ((ratRem a b + b) / b) = 1 := by
        rw [hdiv, jsTrunc_of_nonneg
            (by have := Int.fract_nonneg (a / b); linarith),
          show Int.fract (a / b) + 1 = Int.fract (a / b) + (1 : ℤ) by
            push_cast; ring,
          Int.floor_add_int, Int.floor_fract]
        norm_num
      rw [ratRem, htr, h]
      push_cast
      ring
    · -- r = b * (fract - 1) : (r + b) / b = fract, truncating to 0
      have hdiv : (ratRem a b + b) / b = Int.fract (a / b) := by
        rw [h]
        field_simp
        ring
      have htr : jsTrunc ((ratRem a b + b) / b) = 0 := by
        rw [hdiv, jsTrunc_of_nonneg (Int.fract_nonneg _), Int.floor_fract]
      rw [ratRem, htr, h]
      push_cast
      ring
  exact ⟨hmodeq, hm0, hm1, hremeq, hsign1, hsign2, hbound1, hbound2⟩

theorem C7_mod_rem_witness :
    (0 : ℚ) < 5 ∧
    mod (vNum (-1)) (vNum 5) = .ok (vNum 4) ∧
    rem (vNum (-1)) (vNum 5) = .ok (vNum (-1)) := by
  have h := C7_mod_rem (-1) 5 (by norm_num)
  refine ⟨by norm_num, ?_, ?_⟩
  · rw [h.1]
    norm_num
  · rw [h.2.2.2.1]
    have : ratRem (-1) 5 = -1 := by
      rw [ratRem, jsTrunc, if_neg (by norm_num)]
      norm_num
    rw [this]

/-! ### Evaluation helpers for concrete values -/

theorem toString_nat_zero : toString (0 : Nat) = "0" := by decide

theorem toString_nat_one : toString (1 : Nat) = "1" := by decide

/-! ### C3: reflexivity of `eqv` -/

theorem refEq_self {x : JSVal} (h : x ≠ vNaN) : refEq x x = true := by
  cases x <;> first
    | exact absurd rfl h
    | simp [refEq]

/-- C3 counterexample: the claim `equivalent(x, x)` is true for every
value `x` fails at `x = NaN`: `NaN === NaN` is false, NaN is no buffer,
date or regexp, both sides have `typeof` `'number'`, and the loose
comparison `NaN == NaN` is false, so `eqv(NaN, NaN)` is `false`. -/
theorem C3_eqv_nan_not_refl : eqv vNaN vNaN = .ok false := by
  simp [eqv, refEq, isBuffer, isDate, isRegExpVal, typeofObject, looseEq]

/-- C3 (amended): `eqv(x, x)` is true for every value `x` other than
NaN — `x === x` short-circuits the engine at its identity rule. -/
theorem C3_eqv_refl (x : JSVal) (h : x ≠ vNaN) : eqv x x = .ok true := by
  rw [eqv.eq_def, refEq_self h]
  simp

theorem C3_eqv_refl_witness :
    eqv (vObj 0 [("a", vNum 1)]) (vObj 0 [("a", vNum 1)]) = .ok true :=
  C3_eqv_refl (vObj 0 [("a", vNum 1)]) (by intro h; cases h)

/-! ### C9: null/undefined at the composite rule -/

/-- C9: whenever the comparison reaches the composite rule with either
value null or undefined, the result is false — `objEquiv` rejects every
such pair, so `eqv(null, undefined)` and `eqv(undefined, null)` are
false, while `eqv(null, null)` is true only through the identity rule
(`objEquiv(null, null)` itself is false). -/
theorem C9_composite_null_rule :
    (∀ a b : JSVal, (isNullish a || isNullish b) = true →
      objEquiv a b = .ok false) ∧
    eqv vNull vUndef = .ok false ∧
    eqv vUndef vNull = .ok false ∧
    eqv vNull vNull = .ok true ∧
    objEquiv vNull vNull = .ok false := by
  refine ⟨?_, ?_, ?_, ?_, ?_⟩
  · intro a b h
    rw [objEquiv.eq_def, h]
    simp
  · simp [eqv, objEquiv, refEq, isBuffer, isDate, isRegExpVal,
      typeofObject, isNullish]
  · simp [eqv, objEquiv, refEq, isBuffer, isDate, isRegExpVal,
      typeofObject, isNullish]
  · simp [eqv, refEq]
  · simp [objEquiv, isNullish]

theorem C9_composite_null_rule_witness :
    ((isNullish vNull || isNullish (vNum 1)) = true) ∧
    objEquiv vNull (vNum 1) = .ok false :=
  ⟨by simp [isNullish], C9_composite_null_rule.1 vNull (vNum 1)
    (by simp [isNullish])⟩

/-! ### C10: records versus arrays -/

/-- C10: the engine conflates records and arrays with matching key sets:
`equivalent({}, [])` and `equivalent({"0": 1}, [1])` are both true, the
constructor check comparing only the (absent on both sides, hence equal)
own `prototype` property before falling through to key/value
comparison. -/
theorem C10_record_array_conflated :
    eqv (vObj 0 []) (vArr 1 []) = .ok true ∧
    eqv (vObj 2 [("0", vNum 1)]) (vArr 3 [vNum 1]) = .ok true ∧
    protoEq (vObj 0 []) (vArr 1 []) = true := by
  refine ⟨?_, ?_, by simp [protoEq, protoProp, refEq]⟩
  all_goals
    simp [eqv, objEquiv, eqvValues, refEq, isBuffer, isDate, isRegExpVal,
      typeofObject, isNullish, protoEq, protoProp, isArgumentsObject,
      objectKeys, sortKeys, insertKey, keyLe, charListLe, getOwn,
      parseIdx, digitsVal, bufEqv, dateEqv, regexpEqv, looseEq,
      List.range_succ, List.lookup, toString_nat_zero, toString_nat_one]

/-! ### C5: arguments objects in the composite rule -/

/-- C5 counterexample: an arguments object and an array with the same
single element are not equivalent — the composite rule answers false as
soon as only the first value is argument-list-like (objEquiv lines
288-290) — contradicting the claim that argument lists are normalised so
that such pairs compare equal. -/
theorem C5_args_vs_array_false :
    eqv (vArgs 0 [vNum 1]) (vArr 1 [vNum 1]) = .ok false := by
  simp [eqv, objEquiv, refEq, isBuffer, isDate, isRegExpVal,
    typeofObject, isNullish, protoEq, protoProp, isArgumentsObject]

/-- C5 (amended): only when the *first* value is argument-list-like does
the engine consult the second: if the second is not argument-list-like
(and not nullish, which an earlier rule catches) the composite rule
returns false rather than normalising; when both are argument-list-like
the normalisation branch is entered, and in this build it throws a
`ReferenceError`, its slice helper `pSlice` being an unbound global
(highland.js lines 291-292). -/
theorem C5_args_normalisation :
    (∀ (i : Nat) (xs : List JSVal) (b : JSVal),
      isArgumentsObject b = false → isNullish b = false →
      objEquiv (vArgs i xs) b = .ok false) ∧
    (∀ (i j : Nat) (xs ys : List JSVal),
      objEquiv (vArgs i xs) (vArgs j ys) = .error .refError) := by
  constructor
  · intro i xs b hb hbn
    have ha : isNullish (vArgs i xs) = false := rfl
    have hga : isArgumentsObject (vArgs i xs) = true := rfl
    by_cases hp : protoEq (vArgs i xs) b = true
    · rw [objEquiv.eq_def, ha, hbn, hp, hga, hb]
      simp
    · rw [Bool.not_eq_true] at hp
      rw [objEquiv.eq_def, ha, hbn, hp]
      simp
  · intro i j xs ys
    rw [objEquiv.eq_def]
    simp [isNullish, protoEq, protoProp, refEq, isArgumentsObject]

theorem C5_args_normalisation_witness :
    isArgumentsObject (vArr 1 [vNum 1]) = false ∧
    isNullish (vArr 1 [vNum 1]) = false ∧
    objEquiv (vArgs 0 [vNum 1]) (vArr 1 [vNum 1]) = .ok false ∧
    objEquiv (vArgs 0 []) (vArgs 1 []) = .error .refError :=
  ⟨by simp [isArgumentsObject], by simp [isNullish],
    C5_args_normalisation.1 0 [vNum 1] (vArr 1 [vNum 1])
      (by simp [isArgumentsObject]) (by simp [isNullish]),
    C5_args_normalisation.2 0 1 [] []⟩

/-! ### C6: key-enumeration failure -/

theorem isArgs_false_of_keys_none {b : JSVal}
    (h : objectKeys b = none) : isArgumentsObject b = false := by
  cases b <;> simp_all [objectKeys, isArgumentsObject]

/-- C6: whenever key enumeration throws (`Object.keys` on a primitive
operand — `objectKeys` is `none`), the engine answers false instead of
propagating; and this is the only locally recovered failure: an error
arising in the recursive value comparison (here the `pSlice`
`ReferenceError` from a nested pair of arguments objects) propagates out
of `eqv` uncaught. -/
theorem C6_keys_failure_swallowed :
    (∀ a b : JSVal, isNullish a = false → isNullish b = false →
      ((objectKeys a).isNone ∨ (objectKeys b).isNone) →
      objEquiv a b = .ok false) ∧
    eqv (vArr 0 [vArgs 1 []]) (vArr 2 [vArgs 3 []]) =
      .error .refError := by
  constructor
  · intro a b ha hb hk
    rw [objEquiv.eq_def]
    rw [ha, hb]
    by_cases hp : protoEq a b = true
    · rw [hp]
      by_cases hargs : isArgumentsObject a = true
      · rw [hargs]
        have hka : (objectKeys a).isSome := by
          cases a <;> simp_all [isArgumentsObject, objectKeys]
        have hkb : (objectKeys b).isNone := by
          rcases hk with h | h
          · rw [Option.isNone_iff_eq_none] at h
            rw [h] at hka
            cases hka
          · exact h
        have : isArgumentsObject b = false :=
          isArgs_false_of_keys_none (Option.isNone_iff_eq_none.mp hkb)
        rw [this]
        simp
      · rw [Bool.not_eq_true] at hargs
        rw [hargs]
        rcases hk with h | h
        · have : ¬ (objectKeys a).isSome = true := by
            simp [Option.isNone_iff_eq_none.mp h]
          simp only [Bool.false_or, if_false, if_true, this, dite_false,
            dite_eq_ite]
          simp [this]
        · by_cases hka : (objectKeys a).isSome = true
          · have hnb : ¬ (objectKeys b).isSome = true := by
              simp [Option.isNone_iff_eq_none.mp h]
            simp [hka, hnb]
          · simp [hka]
    · simp [hp]
  · simp [eqv, objEquiv, eqvValues, refEq, isBuffer, isDate, isRegExpVal,
      typeofObject, isNullish, protoEq, protoProp, isArgumentsObject,
      objectKeys, sortKeys, insertKey, keyLe, charListLe, getOwn,
      parseIdx, digitsVal, bufEqv, dateEqv, regexpEqv, looseEq,
      List.range_succ, List.lookup, toString_nat_zero, toString_nat_one]

theorem C6_keys_failure_swallowed_witness :
    isNullish (vStr "abc") = false ∧ isNullish (vObj 0 []) = false ∧
    ((objectKeys (vStr "abc")).isNone ∨
      (objectKeys (vObj 0 [])).isNone) ∧
    objEquiv (vStr "abc") (vObj 0 []) = .ok false :=
  ⟨by simp [isNullish], by simp [isNullish],
    Or.inl (by simp [objectKeys]),
    C6_keys_failure_swallowed.1 (vStr "abc") (vObj 0 [])
      (by simp [isNullish]) (by simp [isNullish])
      (Or.inl (by simp [objectKeys]))⟩

/-! ### C8: the ordering predicates -/

theorem number_shape {a : JSVal} (h : type a = "number") :
    a = vNaN ∨ ∃ q : ℚ, a = vNum q := by
  cases a <;> simp_all [type]

/-- C8 counterexample: both operands belong to the ordered-sequence
family (`L.type` is `'array'` for both), yet `lt` raises a type-mismatch
failure, because the element-wise comparison meets a number and a
string — refuting "within a family they return a boolean without
raising". -/
theorem C8_lt_raises_within_family :
    type (vArr 0 [vNum 2]) = type (vArr 1 [vStr "a"]) ∧
    lt (vArr 0 [vNum 2]) (vArr 1 [vStr "a"]) =
      .error (.typeError "Cannot compare type number with type string") := by
  constructor
  · rfl
  · simp [lt, ltElems, type, ltPrim]

/-- C8 (amended): `lt` and `gt` raise a type-mismatch failure whenever
the two operands have different `L.type`s, or share a type outside
{`'number'`, `'string'`, `'array'`}; on numbers and strings they return
a boolean without raising (`lt(2,4) == true`, and `lt(2, "a")` raises);
on arrays the element-wise comparison applies `lt`/`gt` and the
equivalence engine recursively and can itself raise for element pairs of
mismatched or unorderable types (see the counterexample). -/
theorem C8_lt_gt_type_families :
    (∀ a b : JSVal, type a ≠ type b →
      lt a b = .error (.typeError ("Cannot compare type " ++ type a ++
        " with type " ++ type b)) ∧
      gt a b = .error (.typeError ("Cannot compare type " ++ type a ++
        " with type " ++ type b))) ∧
    (∀ a b : JSVal, type a = type b → type a ≠ "string" →
      type a ≠ "number" → type a ≠ "array" →
      lt a b = .error (.typeError ("Cannot order values of type " ++
        type a)) ∧
      gt a b = .error (.typeError ("Cannot order values of type " ++
        type a))) ∧
    (∀ x y : ℚ, lt (vNum x) (vNum y) = .ok (decide (x < y)) ∧
      gt (vNum x) (vNum y) = .ok (decide (y < x))) ∧
    (∀ a b : JSVal, type a = "number" → type b = "number" →
      lt a b = .ok (ltPrim a b) ∧ gt a b = .ok (gtPrim a b)) ∧
    (∀ s t : String, lt (vStr s) (vStr t) = .ok (decide (s < t)) ∧
      gt (vStr s) (vStr t) = .ok (decide (t < s))) ∧
    lt (vNum 2) (vStr "a") =
      .error (.typeError "Cannot compare type number with type string") ∧
    lt (vNum 2) (vNum 4) = .ok true := by
  have hmm : ∀ a b : JSVal, type a ≠ type b →
      lt a b = .error (.typeError ("Cannot compare type " ++ type a ++
        " with type " ++ type b)) ∧
      gt a b = .error (.typeError ("Cannot compare type " ++ type a ++
        " with type " ++ type b)) := by
    intro a b h
    rw [lt.eq_def, gt.eq_def, if_pos h, if_pos h]
    exact ⟨rfl, rfl⟩
  refine ⟨hmm, ?_, ?_, ?_, ?_, ?_, ?_⟩
  · intro a b h hs hn harr
    rw [lt.eq_def, gt.eq_def, if_neg (not_not_intro h),
      if_neg (not_not_intro h), if_neg (by simp [hs, hn]),
      if_neg (by simp [hs, hn])]
    cases a with
    | vStr s => exact absurd rfl hs
    | vNum q => exact absurd rfl hn
    | vNaN => exact absurd rfl hn
    | vArr i xs => exact absurd rfl harr
    | vObj i fs => exact ⟨rfl, rfl⟩
    | vArgs i xs => exact ⟨rfl, rfl⟩
    | vDate i t => exact ⟨rfl, rfl⟩
    | vRegExp i s g m ic l => exact ⟨rfl, rfl⟩
    | vBuf i bs => exact ⟨rfl, rfl⟩
    | vFun i => exact ⟨rfl, rfl⟩
    | vBool c => exact ⟨rfl, rfl⟩
    | vNull => exact ⟨rfl, rfl⟩
    | vUndef => exact ⟨rfl, rfl⟩
  · intro x y
    rw [lt.eq_def, gt.eq_def, if_neg (by simp [type]),
      if_pos (by simp [type]), if_neg (by simp [type]),
      if_pos (by simp [type])]
    exact ⟨rfl, rfl⟩
  · intro a b ha hb
    rcases number_shape ha with h1 | ⟨q1, h1⟩ <;>
      rcases number_shape hb with h2 | ⟨q2, h2⟩ <;>
      subst h1 <;> subst h2 <;>
      (rw [lt.eq_def, gt.eq_def, if_neg (by simp [type]),
        if_pos (by simp [type]), if_neg (by simp [type]),
        if_pos (by simp [type])]
       exact ⟨rfl, rfl⟩)
  · intro s t
    rw [lt.eq_def, gt.eq_def, if_neg (by simp [type]),
      if_pos (by simp [type]), if_neg (by simp [type]),
      if_pos (by simp [type])]
    exact ⟨rfl, rfl⟩
  · rw [lt.eq_def, if_pos (by simp [type])]
    rfl
  · rw [lt.eq_def, if_neg (by simp [type]), if_pos (by simp [type])]
    simp [ltPrim, decide_eq_true_eq]
    norm_num

/-! ### C4: symmetry of `eqv` -/

theorem decide_eq_comm {α : Type} [DecidableEq α] (i j : α) :
    decide (i = j) = decide (j = i) := by
  by_cases h : i = j
  · subst h
    rfl
  · rw [decide_eq_false h, decide_eq_false (fun hh => h hh.symm)]

theorem refEq_symm (a b : JSVal) : refEq a b = refEq b a := by
  cases a <;> cases b <;> simp only [refEq] <;>
    first
      | rfl
      | exact decide_eq_comm _ _

theorem protoEq_symm (a b : JSVal) : protoEq a b = protoEq b a := by
  cases a <;> cases b <;> simp only [protoEq] <;>
    first
      | rfl
      | exact decide_eq_comm _ _
      | exact refEq_symm _ _

theorem looseEq_symm (a b : JSVal) : looseEq a b = looseEq b a := by
  cases a <;> cases b <;> simp only [looseEq]
  all_goals try exact decide_eq_comm _ _
  case vNum.vStr q s =>
    cases strToNum s
    · rfl
    · exact decide_eq_comm _ _
  case vStr.vNum s q =>
    cases strToNum s
    · rfl
    · exact decide_eq_comm _ _
  case vBool.vStr c s =>
    cases strToNum s
    · rfl
    · exact decide_eq_comm _ _
  case vStr.vBool s c =>
    cases strToNum s
    · rfl
    · exact decide_eq_comm _ _

theorem bufBytesEq_symm (xs ys : List Nat) :
    bufBytesEq xs ys = bufBytesEq ys xs := by
  induction xs generalizing ys with
  | nil => cases ys <;> rfl
  | cons x xs ih =>
    cases ys with
    | nil => rfl
    | cons y ys =>
      simp only [bufBytesEq]
      rw [ih, decide_eq_comm]

theorem bufEqv_symm (a b : JSVal) : bufEqv a b = bufEqv b a := by
  cases a <;> cases b <;> simp only [bufEqv]
  case vBuf.vBuf i xs j ys =>
    by_cases h : xs.length = ys.length
    · rw [if_neg (not_not_intro h), if_neg (not_not_intro h.symm),
        bufBytesEq_symm]
    · rw [if_pos h, if_pos (fun hh => h hh.symm)]

theorem dateEqv_symm (a b : JSVal) : dateEqv a b = dateEqv b a := by
  cases a <;> cases b <;> simp only [dateEqv]
  case vDate.vDate i t j u => exact decide_eq_comm _ _

theorem regexpEqv_symm (a b : JSVal) : regexpEqv a b = regexpEqv b a := by
  cases a <;> cases b <;> simp only [regexpEqv]
  case vRegExp.vRegExp i s1 g1 m1 i1 l1 j s2 g2 m2 i2 l2 =>
    rw [decide_eq_comm s1 s2, decide_eq_comm g1 g2, decide_eq_comm m1 m2,
      decide_eq_comm l1 l2, decide_eq_comm i1 i2]

theorem argsFree_not_args {a : JSVal} (h : argsFree a = true) :
    isArgumentsObject a = false := by
  cases a <;> simp_all [argsFree, isArgumentsObject]

theorem argsFreeList_getD {xs : List JSVal} (h : argsFreeList xs = true)
    (i : Nat) : argsFree (xs.getD i vUndef) = true := by
  induction xs generalizing i with
  | nil => simp [argsFree]
  | cons x xs ih =>
    rw [argsFreeList, Bool.and_eq_true] at h
    cases i with
    | zero => exact h.1
    | succ j =>
      show argsFree (xs.getD j vUndef) = true
      exact ih h.2 j

theorem argsFreeFields_lookup {fs : List (String × JSVal)}
    (h : argsFreeFields fs = true) (k : String) :
    argsFree ((fs.lookup k).getD vUndef) = true := by
  induction fs with
  | nil => simp [List.lookup, argsFree]
  | cons f fs ih =>
    obtain ⟨k2, v⟩ := f
    rw [argsFreeFields, Bool.and_eq_true] at h
    rw [List.lookup]
    by_cases hk : k == k2
    · simp only [hk]
      exact h.1
    · simp only [Bool.not_eq_true] at hk
      simp only [hk]
      exact ih h.2

theorem argsFree_getOwn {a : JSVal} (h : argsFree a = true) (k : String) :
    argsFree (getOwn a k) = true := by
  cases a with
  | vObj i fs =>
    exact argsFreeFields_lookup (by simpa [argsFree] using h) k
  | vArr i xs =>
    show argsFree (match parseIdx k with
      | some i2 => xs.getD i2 vUndef
      | none => vUndef) = true
    cases parseIdx k with
    | some i2 => exact argsFreeList_getD (by simpa [argsFree] using h) i2
    | none => rfl
  | vArgs i xs => simp [argsFree] at h
  | vBuf i bs =>
    show argsFree (match parseIdx k with
      | some i2 => match bs.get? i2 with
        | some n => vNum n
        | none => vUndef
      | none => vUndef) = true
    cases parseIdx k with
    | some i2 => cases h2 : bs[i2]? <;> simp [h2, argsFree]
    | none => rfl
  | vNum q => rfl
  | vNaN => rfl
  | vStr s => rfl
  | vBool c => rfl
  | vNull => rfl
  | vUndef => rfl
  | vDate i t => rfl
  | vRegExp i s g m ic l => rfl
  | vFun i => rfl

theorem C8_lt_gt_type_families_witness :
    type (vNum 2) ≠ type (vStr "a") ∧
    lt (vNum 2) (vStr "a") =
      .error (.typeError ("Cannot compare type " ++ type (vNum 2) ++
        " with type " ++ type (vStr "a"))) :=
  ⟨by simp [type], (C8_lt_gt_type_families.1 (vNum 2) (vStr "a")
    (by simp [type])).1⟩

theorem eqvValues_symm_aux (a b : JSVal) (ha1 : 1 ≤ depth a)
    (hb1 : 1 ≤ depth b) (hfa : argsFree a = true)
    (hfb : argsFree b = true)
    (IH : ∀ x y : JSVal, depth x + depth y < depth a + depth b →
      argsFree x = true → argsFree y = true → eqv x y = eqv y x)
    (ks : List String) :
    eqvValues a b ha1 hb1 ks = eqvValues b a hb1 ha1 ks := by
  induction ks with
  | nil =>
    rw [eqvValues.eq_def]
    conv_rhs => rw [eqvValues.eq_def]
  | cons k ks ih =>
    have hx : eqv (getOwn a k) (getOwn b k) =
        eqv (getOwn b k) (getOwn a k) :=
      IH _ _ (by
        have h1 := getOwn_depth_lt ha1 k
        have h2 := getOwn_depth_lt hb1 k
        omega) (argsFree_getOwn hfa k) (argsFree_getOwn hfb k)
    rw [eqvValues.eq_def]
    conv_rhs => rw [eqvValues.eq_def]
    show (match eqv (getOwn a k) (getOwn b k) with
      | Except.error e => Except.error e
      | Except.ok false => Except.ok false
      | Except.ok true => eqvValues a b ha1 hb1 ks) =
      match eqv (getOwn b k) (getOwn a k) with
      | Except.error e => Except.error e
      | Except.ok false => Except.ok false
      | Except.ok true => eqvValues b a hb1 ha1 ks
    rw [hx]
    cases eqv (getOwn b k) (getOwn a k) with
    | error e => rfl
    | ok r =>
      cases r
      · rfl
      · exact ih

theorem objEquiv_symm_aux (a b : JSVal) (hfa : argsFree a = true)
    (hfb : argsFree b = true)
    (IH : ∀ x y : JSVal, depth x + depth y < depth a + depth b →
      argsFree x = true → argsFree y = true → eqv x y = eqv y x) :
    objEquiv a b = objEquiv b a := by
  have hna : isArgumentsObject a = false := argsFree_not_args hfa
  have hnb : isArgumentsObject b = false := argsFree_not_args hfb
  rw [objEquiv.eq_def]
  conv_rhs => rw [objEquiv.eq_def]
  rw [Bool.or_comm (isNullish b) (isNullish a), protoEq_symm b a]
  by_cases h1 : (isNullish a || isNullish b) = true
  · rw [if_pos h1, if_pos h1]
  · rw [if_neg h1, if_neg h1]
    by_cases h2 : protoEq a b = true
    · rw [if_pos h2, if_pos h2, if_neg (by simp [hna]),
        if_neg (by simp [hnb])]
      by_cases hA : (objectKeys a).isSome = true
      · by_cases hB : (objectKeys b).isSome = true
        · rw [dif_pos hA, dif_pos hB, dif_pos hB, dif_pos hA]
          by_cases hlen : ((objectKeys a).get hA).length =
              ((objectKeys b).get hB).length
          · rw [if_pos hlen, if_pos hlen.symm]
            by_cases hsort : sortKeys ((objectKeys a).get hA) =
                sortKeys ((objectKeys b).get hB)
            · rw [if_pos hsort, if_pos hsort.symm, ← hsort]
              exact eqvValues_symm_aux a b _ _ hfa hfb IH _
            · rw [if_neg hsort, if_neg (fun hh => hsort hh.symm)]
          · rw [if_neg hlen, if_neg (fun hh => hlen hh.symm)]
        · rw [dif_pos hA, dif_neg hB, dif_neg hB]
      · by_cases hB : (objectKeys b).isSome = true
        · rw [dif_neg hA, dif_pos hB, dif_neg hA]
        · rw [dif_neg hA, dif_neg hB]
    · rw [if_neg h2, if_neg h2]

theorem eqv_symm_bounded (m : Nat) : ∀ a b : JSVal,
    depth a + depth b = m → argsFree a = true → argsFree b = true →
    eqv a b = eqv b a := by
  induction m using Nat.strong_induction_on with
  | _ m IH =>
    intro a b hm hfa hfb
    have IH2 : ∀ x y : JSVal, depth x + depth y < depth a + depth b →
        argsFree x = true → argsFree y = true → eqv x y = eqv y x := by
      intro x y hxy hx hy
      exact IH (depth x + depth y) (by omega) x y rfl hx hy
    rw [eqv.eq_def]
    conv_rhs => rw [eqv.eq_def]
    rw [refEq_symm b a, Bool.and_comm (isBuffer b) (isBuffer a),
      Bool.and_comm (isDate b) (isDate a),
      Bool.and_comm (isRegExpVal b) (isRegExpVal a),
      Bool.and_comm (!typeofObject b) (!typeofObject a)]
    by_cases h1 : refEq a b = true
    · rw [if_pos h1, if_pos h1]
    · rw [if_neg h1, if_neg h1]
      by_cases h2 : (isBuffer a && isBuffer b) = true
      · rw [if_pos h2, if_pos h2, bufEqv_symm]
      · rw [if_neg h2, if_neg h2]
        by_cases h3 : (isDate a && isDate b) = true
        · rw [if_pos h3, if_pos h3, dateEqv_symm]
        · rw [if_neg h3, if_neg h3]
          by_cases h4 : (isRegExpVal a && isRegExpVal b) = true
          · rw [if_pos h4, if_pos h4, regexpEqv_symm]
          · rw [if_neg h4, if_neg h4]
            by_cases h5 : (!typeofObject a && !typeofObject b) = true
            · rw [if_pos h5, if_pos h5, looseEq_symm]
            · rw [if_neg h5, if_neg h5]
              exact objEquiv_symm_aux a b hfa hfb IH2

/-- C4 counterexample: symmetry fails on the code — an array is
equivalent to an arguments object with the same element, but not the
other way around, because `objEquiv` checks only its *first* argument
for arguments-ness before falling through to the key comparison. -/
theorem C4_eqv_not_symmetric :
    eqv (vArr 0 [vNum 1]) (vArgs 1 [vNum 1]) = .ok true ∧
    eqv (vArgs 1 [vNum 1]) (vArr 0 [vNum 1]) = .ok false := by
  constructor <;>
    simp [eqv, objEquiv, eqvValues, refEq, isBuffer, isDate, isRegExpVal,
      typeofObject, isNullish, protoEq, protoProp, isArgumentsObject,
      objectKeys, sortKeys, insertKey, keyLe, charListLe, getOwn,
      parseIdx, digitsVal, bufEqv, dateEqv, regexpEqv, looseEq,
      List.range_succ, List.lookup, toString_nat_zero, toString_nat_one]

/-- C4 (amended): the structural equivalence test is symmetric on every
pair of values in which no arguments object occurs:
`equivalent(a, b) == equivalent(b, a)` — including the propagated errors
being the same on both orders. -/
theorem C4_eqv_symm (a b : JSVal) (hfa : argsFree a = true)
    (hfb : argsFree b = true) : eqv a b = eqv b a :=
  eqv_symm_bounded (depth a + depth b) a b rfl hfa hfb

theorem C4_eqv_symm_witness :
    argsFree (vObj 0 [("a", vNum 1)]) = true ∧
    argsFree (vArr 1 []) = true ∧
    eqv (vObj 0 [("a", vNum 1)]) (vArr 1 []) =
      eqv (vArr 1 []) (vObj 0 [("a", vNum 1)]) :=
  ⟨by simp [argsFree, argsFreeFields, argsFreeList],
    by simp [argsFree, argsFreeList],
    C4_eqv_symm _ _ (by simp [argsFree, argsFreeFields])
      (by simp [argsFree, argsFreeList])⟩

end Highland
